import Mathlib

/-!
Verification of the fmp password-manager core against its specification.

The development shallowly embeds the Rust source:
* `src/vault.rs` — `UserPass`, `Store::encrypt_to_file`, `Store::decrypt_from_file`
  (the external OpenPGP engine is modelled as an abstract `CryptoGateway`);
* `src/totp.rs` — the TOTP ledger state machine (`is_totp_required`,
  `ledger_add`, `ledger_remove`, `enable_totp`, `disable_totp`), `hotp` and
  `verify_totp_code` (HMAC-SHA1 is modelled as an abstract `mac` function);
* `src/src/password.rs` — `generate_password` and `calculate_shannon_entropy`.

Machine integers are modelled as `Nat`/`Int` with explicit wrap-around where the
source can overflow.  Byte strings are `List Nat` (each element < 256), Rust
`String` values are lists of unicode scalar values (`List Nat` for the Store,
`List Char` where character classification matters).
-/

set_option maxHeartbeats 1000000

namespace FMP

/-! ### UTF-8 byte codec

Models Rust `String::as_bytes` (encoding) and `String::from_utf8` (validating
decode), used by `Store::encrypt_to_file` / `Store::decrypt_from_file` to pass
the username through the byte envelope `"<username>:<password-bytes>"`. -/

/-- Valid unicode scalar value: below 0x110000 and not a surrogate. -/
def ValidScalar (c : Nat) : Prop := c < 0x110000 ∧ (c < 0xD800 ∨ 0xE000 ≤ c)

instance (c : Nat) : Decidable (ValidScalar c) := by
  unfold ValidScalar; infer_instance

/-- Standard UTF-8 encoding of one unicode scalar value. -/
def utf8EncodeChar (c : Nat) : List Nat :=
  if c < 0x80 then [c]
  else if c < 0x800 then [0xC0 + c / 0x40, 0x80 + c % 0x40]
  else if c < 0x10000 then
    [0xE0 + c / 0x1000, 0x80 + c / 0x40 % 0x40, 0x80 + c % 0x40]
  else
    [0xF0 + c / 0x40000, 0x80 + c / 0x1000 % 0x40, 0x80 + c / 0x40 % 0x40,
      0x80 + c % 0x40]

/-- UTF-8 encoding of a string given as its list of scalar values. -/
def utf8Encode (u : List Nat) : List Nat := u.flatMap utf8EncodeChar

/-- Whether a byte is a UTF-8 continuation byte (10xxxxxx). -/
def IsCont (b : Nat) : Prop := 0x80 ≤ b ∧ b < 0xC0

instance (b : Nat) : Decidable (IsCont b) := by
  unfold IsCont; infer_instance

/-- Validating UTF-8 decoder (models `String::from_utf8`): rejects overlong
encodings, surrogates and out-of-range values, and returns the list of scalar
values on success.  Continuation bytes are accessed positionally via `getD`. -/
def utf8Decode : List Nat → Option (List Nat)
  | [] => some []
  | b0 :: rest =>
    if b0 < 0x80 then
      (utf8Decode rest).map (b0 :: ·)
    else if b0 < 0xC2 then none
    else if b0 < 0xE0 then
      if 1 ≤ rest.length ∧ IsCont (rest.getD 0 0) then
        (utf8Decode (rest.drop 1)).map
          (((b0 - 0xC0) * 0x40 + (rest.getD 0 0 - 0x80)) :: ·)
      else none
    else if b0 < 0xF0 then
      let c := (b0 - 0xE0) * 0x1000 + (rest.getD 0 0 - 0x80) * 0x40 +
        (rest.getD 1 0 - 0x80)
      if 2 ≤ rest.length ∧ IsCont (rest.getD 0 0) ∧ IsCont (rest.getD 1 0) ∧
          0x800 ≤ c ∧ (c < 0xD800 ∨ 0xE000 ≤ c) then
        (utf8Decode (rest.drop 2)).map (c :: ·)
      else none
    else if b0 < 0xF5 then
      let c := (b0 - 0xF0) * 0x40000 + (rest.getD 0 0 - 0x80) * 0x1000 +
        (rest.getD 1 0 - 0x80) * 0x40 + (rest.getD 2 0 - 0x80)
      if 3 ≤ rest.length ∧ IsCont (rest.getD 0 0) ∧ IsCont (rest.getD 1 0) ∧
          IsCont (rest.getD 2 0) ∧ 0x10000 ≤ c ∧ c < 0x110000 then
        (utf8Decode (rest.drop 3)).map (c :: ·)
      else none
    else none
termination_by l => l.length
decreasing_by
  all_goals simp [List.length_drop]
  all_goals omega

/-! ### Store layer (`src/vault.rs`)

`UserPass` holds the account username (a Rust `String`, modelled as its list of
unicode scalar values) and the password bytes.  The OpenPGP engine reached
through gpgme is out of scope per the spec; it is modelled as an abstract
`CryptoGateway` providing `encrypt`/`decrypt` on byte strings (recipient
resolution failures and engine failures surface as `Except.error`). -/

/-- Account record: plaintext username (scalar values) and password bytes. -/
structure UserPass where
  username : List Nat
  password : List Nat
  deriving DecidableEq

/-- Abstract OpenPGP engine: `encrypt(recipient, bytes)` / `decrypt(bytes)`. -/
structure CryptoGateway where
  encrypt : List Nat → Except String (List Nat)
  decrypt : List Nat → Except String (List Nat)

/-- Models `Iterator::position`: index of the first element satisfying `p`. -/
def position (p : Nat → Bool) : List Nat → Option Nat
  | [] => none
  | b :: rest => if p b then some 0 else (position p rest).map (· + 1)

/-- Models `Store::encrypt_to_file`: builds the plaintext byte string
`username_bytes ++ ":" ++ password_bytes` and encrypts it through the gateway.
The returned byte string is the content written to the account's `data.gpg`
(memory locking and zeroization have no observable effect on the data and are
not modelled). -/
def encrypt_to_file (gw : CryptoGateway) (userpass : UserPass) :
    Except String (List Nat) :=
  let data := utf8Encode userpass.username ++ [0x3A] ++ userpass.password
  gw.encrypt data

/-- Models `Store::decrypt_from_file`: decrypts the file content, splits at the
first `:` byte (missing separator or empty password are malformed-data errors)
and re-validates the username as UTF-8. -/
def decrypt_from_file (gw : CryptoGateway) (file : List Nat) :
    Except String UserPass := do
  let output ← gw.decrypt file
  match position (· == 0x3A) output with
  | none => Except.error "Decrypted data is malformed: missing separator"
  | some sep =>
    let username_bytes := output.take sep
    let password_bytes := output.drop (sep + 1)
    if password_bytes = [] then
      Except.error "Decrypted data is malformed: empty password"
    else
      match utf8Decode username_bytes with
      | none => Except.error "invalid utf-8 sequence"
      | some username =>
        Except.ok { username := username, password := password_bytes }

/-- Gateway whose encryption is the identity; its decrypt inverts its encrypt. -/
def idGateway : CryptoGateway where
  encrypt := fun d => Except.ok d
  decrypt := fun d => Except.ok d

/-! ### TOTP ledger state machine (`src/totp.rs`)

The ledger-visible filesystem state is modelled explicitly: the two ledger
files (config dir and data dir) as the lists of vault names they hold, and the
set of vaults whose `totp.gpg` file exists.  File contents of ledgers are sets
of names (the source loads them into a `HashSet`; sorting on save does not
affect membership).  The encrypted secret and the gate canary carry no
ledger-relevant information and are not modelled beyond file presence. -/

/-- Filesystem state visible to the TOTP ledger subsystem. -/
structure TotpFS where
  cfgLedger : List String
  dataLedger : List String
  totpFiles : List String
  deriving DecidableEq

/-- Models `ledger_union`: set union of the two ledger files. -/
def ledger_union (s : TotpFS) : List String := s.cfgLedger ++ s.dataLedger

/-- Models `ledger_contains`. -/
def ledger_contains (s : TotpFS) (v : String) : Bool := (ledger_union s).contains v

/-- Set-insert into one ledger file (models `HashSet::insert` + save). -/
def insertName (l : List String) (v : String) : List String :=
  if v ∈ l then l else l ++ [v]

/-- Set-remove from one ledger file (models `HashSet::remove` + save). -/
def removeName (l : List String) (v : String) : List String :=
  l.filter (fun x => !(x == v))

/-- Models `ledger_add`: inserts the vault name into both ledger copies. -/
def ledger_add (s : TotpFS) (v : String) : TotpFS :=
  { s with cfgLedger := insertName s.cfgLedger v,
           dataLedger := insertName s.dataLedger v }

/-- Models `ledger_remove`: removes the vault name from both ledger copies. -/
def ledger_remove (s : TotpFS) (v : String) : TotpFS :=
  { s with cfgLedger := removeName s.cfgLedger v,
           dataLedger := removeName s.dataLedger v }

/-- Models `is_totp_required`: true if the name is in the ledger union, else if
`totp.gpg` exists the name is re-added to both ledgers (self-healing) and the
result is true, else false.  Returns the answer with the possibly-updated
filesystem state. -/
def is_totp_required (s : TotpFS) (v : String) : Bool × TotpFS :=
  if ledger_contains s v then (true, s)
  else if s.totpFiles.contains v then (true, ledger_add s v)
  else (false, s)

/-- Models the success path of `enable_totp`: stores the encrypted secret at
`totp.gpg` and adds the vault to both ledgers (the gate canary and the secret
bytes themselves do not affect the ledger state). -/
def enable_totp (s : TotpFS) (v : String) : TotpFS :=
  ledger_add { s with totpFiles := insertName s.totpFiles v } v

/-- Models the success path of `disable_totp`: removes `totp.gpg` when it
exists, then unconditionally purges the name from both ledger copies. -/
def disable_totp (s : TotpFS) (v : String) : TotpFS :=
  let s1 := if s.totpFiles.contains v then
    { s with totpFiles := removeName s.totpFiles v } else s
  ledger_remove s1 v

/-- Models an attacker deleting `totp.gpg` directly from disk, without going
through `disable_totp`. -/
def delete_totp_file (s : TotpFS) (v : String) : TotpFS :=
  { s with totpFiles := removeName s.totpFiles v }

/-! ### HOTP and TOTP verification (`src/totp.rs`)

`hotp` is embedded over an abstract `mac : secret → message → digest`
parameter standing for HMAC-SHA1 (the `hmac`/`sha1` crates are external
dependencies; theorems assume the digest is 20 bytes, each below 256).
`verify_totp_code` is embedded over the abstract mac, the outcome of
decrypting the stored secret, and the current Unix time `now` (the source
obtains it from `SystemTime`; values below `2^63` are representable in the
source's `i64`).  Rust `format!` on `u32` is modelled by `natRepr` /
`fmt_zero_pad`. -/

/-- Decimal digit character (the digits Rust `format!` emits). -/
def digitChar (n : Nat) : Char :=
  match n with
  | 0 => '0' | 1 => '1' | 2 => '2' | 3 => '3' | 4 => '4'
  | 5 => '5' | 6 => '6' | 7 => '7' | 8 => '8' | _ => '9'

/-- Decimal representation of a natural number, most significant digit first
(models Rust's `Display` for unsigned integers). -/
def natRepr (n : Nat) : List Char :=
  if n < 10 then [digitChar n]
  else natRepr (n / 10) ++ [digitChar (n % 10)]
termination_by n
decreasing_by exact Nat.div_lt_self (by omega) (by omega)

/-- Models Rust `format!` with a zero-pad minimum width. -/
def fmt_zero_pad (width n : Nat) : List Char :=
  List.replicate (width - (natRepr n).length) '0' ++ natRepr n

/-- Decimal value of a digit string (used to show `fmt_zero_pad` is injective
on values). -/
def parseDec (l : List Char) : Nat :=
  l.foldl (fun a c => 10 * a + (c.toNat - 48)) 0

/-- Models Rust `str::trim` (drop leading and trailing whitespace). -/
def rustTrim (l : List Char) : List Char :=
  ((l.dropWhile Char.isWhitespace).reverse.dropWhile Char.isWhitespace).reverse

/-- Models the normalization in `verify_totp_code`:
`code.trim().chars().filter(|c| !c.is_whitespace())`. -/
def normalize_code (code : List Char) : List Char :=
  (rustTrim code).filter (fun c => !c.isWhitespace)

/-- Models the Rust cast `as u64` applied to an `i64` value. -/
def u64_cast (x : Int) : Nat := (x % (2 ^ 64 : Int)).toNat

/-- Models `u64::to_be_bytes`: the 8-byte big-endian encoding. -/
def be_bytes8 (counter : Nat) : List Nat :=
  [counter / 2 ^ 56 % 256, counter / 2 ^ 48 % 256, counter / 2 ^ 40 % 256,
    counter / 2 ^ 32 % 256, counter / 2 ^ 24 % 256, counter / 2 ^ 16 % 256,
    counter / 2 ^ 8 % 256, counter % 256]

/-- Models `hotp` from `src/totp.rs`: big-endian counter bytes are MACed, the
low nibble of the last digest byte selects four bytes whose top bit is masked,
and the 31-bit value is reduced modulo `10^digits`.  Digest bytes are read
with `getD` (HMAC-SHA1 digests always have 20 bytes). -/
def hotp (mac : List Nat → List Nat → List Nat) (secret : List Nat)
    (counter : Nat) (digits : Nat) : Nat :=
  let counter_bytes := be_bytes8 counter
  let result := mac secret counter_bytes
  let offset := result.getD 19 0 &&& 0x0f
  let bin_code := ((result.getD offset 0 &&& 0x7f) <<< 24) |||
    ((result.getD (offset + 1) 0 &&& 0xff) <<< 16) |||
    ((result.getD (offset + 2) 0 &&& 0xff) <<< 8) |||
    (result.getD (offset + 3) 0 &&& 0xff)
  bin_code % 10 ^ digits

/-- RFC 4226 HOTP as the spec describes it (refinement reference for `hotp`):
HMAC over the 8-byte big-endian counter, dynamic truncation taking the offset
from the low nibble of the last MAC byte, masking the top bit of the 4
selected bytes combined big-endian, reduction modulo `10^digits`. -/
def hotp_rfc4226 (mac : List Nat → List Nat → List Nat) (secret : List Nat)
    (counter : Nat) (digits : Nat) : Nat :=
  let result := mac secret (be_bytes8 counter)
  let offset := result.getLastD 0 % 16
  let code := (result.getD offset 0 % 128) * 2 ^ 24 +
    result.getD (offset + 1) 0 % 256 * 2 ^ 16 +
    result.getD (offset + 2) 0 % 256 * 2 ^ 8 +
    result.getD (offset + 3) 0 % 256
  code % 10 ^ digits

/-- Models `verify_totp_code`: normalizes the input, rejects codes outside
6 to 8 ASCII digits before touching the secret, then compares against the
zero-padded 6-digit HOTP values at time-step skews -1, 0, +1.  `secretRes` is
the outcome of `decrypt_secret` and `now` the current Unix time in seconds. -/
def verify_totp_code (mac : List Nat → List Nat → List Nat)
    (secretRes : Except String (List Nat)) (code : List Char) (now : Nat) :
    Except String Bool :=
  let code := normalize_code code
  if decide (code.length < 6) || decide (8 < code.length) ||
      !(code.all Char.isDigit) then
    Except.ok false
  else do
    let secret ← secretRes
    let step := 30
    let digits := 6
    let valid := [(-1 : Int), 0, 1].any fun skew =>
      let counter := u64_cast (((now / step : Nat) : Int) + skew)
      let hotp_val := hotp mac secret counter digits
      let candidate := fmt_zero_pad digits hotp_val
      candidate == code
    Except.ok valid

/-! ### Password generator (`src/src/password.rs`)

`generate_password` mutates `FmpApp`; the RNG (`pool_vec.choose(&mut rng())`)
is modelled by an arbitrary stream `draws : Nat → Nat` of indices reduced
modulo the pool size, and the app state by the fields the function reads and
writes.  The generated string is modelled as its character list (the source
stores its UTF-8 bytes in a `SecretBox`).  The candidate pool is a `HashSet`
in the source; `dedup` models its distinct elements, iteration order being
irrelevant to membership and length. -/

/-- Class pool strings from `generate_password`. -/
def lowerPool : List Char := "abcdefghijklmnopqrstuvwxyz".toList

/-- Upper-case class pool. -/
def upperPool : List Char := "ABCDEFGHIJKLMNOPQRSTUVWXYZ".toList

/-- Digit class pool. -/
def digitPool : List Char := "0123456789".toList

/-- Symbol class pool (`\x60`, `\x7b`, `\x7d` are the backquote and braces). -/
def symbolPool : List Char := "!\"#%&\x27()*+,-./:;<=>?@[\\]^_\x60\x7b|\x7d-".toList

/-- Space class pool. -/
def spacePool : List Char := [' ']

/-- Accented class pool. -/
def accentPool : List Char :=
  "áÁàÀâÂäÄãÃåÅæÆçÇéÉèÈêÊëËíÍìÌîÎïÏñÑóÓòÒôÔöÖõÕøØœŒßúÚùÙûÛüÜ".toList

/-- The `FmpApp` fields `generate_password` touches: the six class selection
flags (`[bool; 6]`), the always-include and always-exclude character sets, the
requested length (`u8`), and the output field. -/
structure FmpApp where
  selections : List Bool
  consider_characters : List Char
  ignore_characters : List Char
  password_length : Nat
  generated_password : List Char

/-- Union of the selected class pools, in source order. -/
def class_pool (app : FmpApp) : List Char :=
  (if app.selections.getD 0 false then lowerPool else []) ++
  (if app.selections.getD 1 false then upperPool else []) ++
  (if app.selections.getD 2 false then digitPool else []) ++
  (if app.selections.getD 3 false then symbolPool else []) ++
  (if app.selections.getD 4 false then spacePool else []) ++
  (if app.selections.getD 5 false then accentPool else [])

/-- The candidate pool: selected classes minus excluded characters, plus the
explicitly included characters (include wins over exclude). -/
def candidate_pool (app : FmpApp) : List Char :=
  ((class_pool app).filter (fun c => !(app.ignore_characters.contains c)) ++
    app.consider_characters).dedup

/-- Models `generate_password`: when the candidate pool is non-empty, draws
`password_length` characters from it (uniform choice modelled by the `draws`
index stream) into `generated_password`; an empty pool leaves the app
unchanged. -/
def generate_password (app : FmpApp) (draws : Nat → Nat) : FmpApp :=
  let pool_vec := candidate_pool app
  if pool_vec ≠ [] then
    { app with generated_password := ((List.range app.password_length).map
        (fun i => pool_vec.getD (draws i % pool_vec.length) ' ')) }
  else app

/-- Fixed sample app for the generator witness: lower-case class only,
length 4. -/
def sampleApp : FmpApp :=
  { selections := [true, false, false, false, false, false],
    consider_characters := [], ignore_characters := [],
    password_length := 4, generated_password := [] }

/-! ### Password strength estimator (`src/src/password.rs`)

`calculate_shannon_entropy` is embedded over the real numbers: the source's
`f64` Shannon-entropy computation uses `log2`, which has no exact
finite-precision model; the structural claims (max/clamp shape, thresholds)
are precision-independent.  The penalty computation only ever produces
integer-valued quantities and is embedded over the rationals, computably.
Rust's Unicode `to_lowercase` is modelled by the ASCII `Char.toLower` (the
penalty dictionaries are all ASCII). -/

/-- Models `password.to_lowercase()`. -/
def to_lower (s : List Char) : List Char := s.map Char.toLower

/-- Models `normalize_leetspeak`. -/
def normalize_leetspeak (input : List Char) : List Char :=
  input.map (fun ch =>
    match ch with
    | '0' => 'o'
    | '1' => 'l'
    | '3' => 'e'
    | '4' | '@' => 'a'
    | '5' | '$' => 's'
    | '6' | '9' => 'g'
    | '7' | '+' => 't'
    | '8' => 'b'
    | '!' => 'i'
    | _ => ch)

/-- Models `is_repeating_char`: every character equals the first (false on the
empty string). -/
def is_repeating_char (s : List Char) : Bool :=
  match s with
  | [] => false
  | first :: rest => rest.all (fun c => c == first)

/-- Models Rust `str::contains` (substring containment). -/
def containsSeg (hay sub : List Char) : Bool :=
  hay.tails.any (fun t => sub.isPrefixOf t)

/-- Keyboard rows from `COMMON_KEYBOARD_ROWS`. -/
def COMMON_KEYBOARD_ROWS : List (List Char) :=
  ["1234567890".toList, "qwertyuiop".toList, "asdfghjkl".toList,
    "zxcvbnm".toList]

/-- Month and weekday tokens from `COMMON_MONTHS_DAYS`. -/
def COMMON_MONTHS_DAYS : List (List Char) :=
  [ "jan".toList, "january".toList, "feb".toList, "february".toList, "mar".toList, "march".toList,
   "apr".toList, "april".toList, "may".toList, "jun".toList, "june".toList, "jul".toList,
   "july".toList, "aug".toList, "august".toList, "sep".toList, "sept".toList, "september".toList,
   "oct".toList, "october".toList, "nov".toList, "november".toList, "dec".toList,
   "december".toList, "mon".toList, "monday".toList, "tue".toList, "tues".toList,
   "tuesday".toList, "wed".toList, "weds".toList, "wednesday".toList, "thu".toList, "thur".toList,
   "thurs".toList, "thursday".toList, "fri".toList, "friday".toList, "sat".toList,
   "saturday".toList, "sun".toList, "sunday".toList]

/-- Common password dictionary from `COMMON_PASSWORDS`. -/
def COMMON_PASSWORDS : List (List Char) :=
  [ "123456".toList, "password".toList, "123456789".toList, "12345".toList, "12345678".toList,
   "qwerty".toList, "1234567".toList, "111111".toList, "123123".toList, "abc123".toList,
   "password1".toList, "1234".toList, "iloveyou".toList, "1q2w3e4r".toList, "000000".toList,
   "qwertyuiop".toList, "monkey".toList, "dragon".toList, "letmein".toList, "696969".toList,
   "shadow".toList, "master".toList, "666666".toList, "qwerty123".toList, "football".toList,
   "welcome".toList, "admin".toList, "princess".toList, "login".toList, "solo".toList,
   "passw0rd".toList, "starwars".toList, "hello".toList, "freedom".toList, "whatever".toList,
   "qazwsx".toList, "trustno1".toList, "zaq12wsx".toList, "password123".toList, "batman".toList,
   "superman".toList, "121212".toList, "flower".toList, "hottie".toList, "loveme".toList,
   "photoshop".toList, "adobe123".toList, "123qwe".toList, "qwe123".toList, "qwerty1".toList,
   "q1w2e3r4".toList, "1qaz2wsx".toList, "baseball".toList, "1qazxsw2".toList, "asdfgh".toList,
   "asdfghjkl".toList, "asdf".toList, "qazwsxedc".toList, "pokemon".toList, "football1".toList,
   "charlie".toList, "donald".toList, "jennifer".toList, "michelle".toList, "nicole".toList,
   "ashley".toList, "sunshine".toList, "michael".toList, "jordan".toList, "harley".toList,
   "ginger".toList, "summer".toList, "taylor".toList, "liverpool".toList, "chelsea".toList,
   "arsenal".toList, "manchester".toList, "q1w2e3".toList, "aa123456".toList, "abc123456".toList,
   "1234567890".toList, "qwerty12345".toList, "1q2w3e".toList, "temp123".toList,
   "welcome1".toList, "admin123".toList, "root".toList, "toor".toList, "letmein1".toList,
   "pass123".toList, "pass1234".toList, "pass12345".toList, "love".toList, "lovely".toList,
   "secret".toList, "secret1".toList, "password!".toList, "password$".toList, "p@ssw0rd".toList,
   "p@ssword".toList, "p@55w0rd".toList, "p4ssw0rd".toList, "p@ssw0rd1".toList,
   "iloveyou1".toList, "qwert".toList, "qwertyui".toList, "qwertyu".toList, "qwerty12".toList,
   "qwerty1234".toList, "qwerty!".toList, "123321".toList, "654321".toList, "7777777".toList,
   "87654321".toList, "987654321".toList, "31415926".toList, "password2".toList, "112233".toList,
   "q1w2e3r4t5".toList, "1q2w3e4r5t".toList, "qwertyqwerty".toList, "letmein123".toList,
   "adminadmin".toList, "qazxsw".toList, "zaqxsw".toList, "test".toList, "testing".toList,
   "test123".toList, "test1".toList, "password0".toList, "welcome123".toList, "hello123".toList,
   "dragon123".toList, "monkey123".toList, "superman1".toList, "batman1".toList,
   "baseball1".toList, "football2".toList, "soccer".toList, "soccer1".toList, "hockey".toList,
   "hockey1".toList, "basketball".toList, "basketball1".toList, "computer".toList,
   "computer1".toList, "internet".toList, "internet1".toList, "qweasd".toList, "asdasd".toList,
   "asd123".toList, "asd123456".toList, "abc321".toList, "abcd1234".toList, "abcd123".toList,
   "myspace1".toList, "fuckyou".toList, "fuckyou1".toList, "qweasd123".toList, "iloveu".toList,
   "iloveu2".toList, "letmein!".toList, "passw0rd1".toList, "login123".toList, "qazwsx123".toList,
   "11111111".toList, "222222".toList, "333333".toList, "444444".toList, "555555".toList,
   "888888".toList, "999999".toList, "q1w2e3r4t5y6".toList, "1q2w3e4r".toList, "12341234".toList,
   "12121212".toList, "love123".toList, "sexy".toList, "sexy123".toList, "blink182".toList,
   "mustang".toList, "honda".toList, "mercedes".toList, "chevrolet".toList, "ferrari".toList,
   "porsche".toList, "volvo".toList, "ford".toList, "tesla".toList, "nissan".toList,
   "toyota".toList, "qweqwe".toList, "qwe12345".toList, "asdf1234".toList, "asdf123".toList,
   "1qaz2wsx3edc".toList, "!qaz2wsx".toList, "admin1".toList, "rootroot".toList,
   "letmein2".toList, "passw0rd!".toList, "user".toList, "user123".toList, "welcome!".toList,
   "welcome2".toList, "qwert1".toList, "qwert12".toList, "qwert123".toList, "qwert1234".toList,
   "pass!".toList, "pass!!".toList, "pass$".toList, "password@".toList, "pass@123".toList,
   "pass@word1".toList]

/-- Models `contains_any_token`. -/
def contains_any_token (hay : List Char) (tokens : List (List Char))
    (min_len : Nat) : Bool :=
  tokens.any (fun t => decide (min_len ≤ t.length) && containsSeg hay t)

/-- Models `contains_common_substring`. -/
def contains_common_substring (hay : List Char) (min_len : Nat) : Bool :=
  COMMON_PASSWORDS.any (fun p => decide (min_len ≤ p.length) && containsSeg hay p)

/-- Models `contains_keyboard_sequence`: some row segment of length at least
`min_len`, or its reverse, occurs in `s`. -/
def contains_keyboard_sequence (s : List Char) (min_len : Nat) : Bool :=
  COMMON_KEYBOARD_ROWS.any (fun row =>
    let row_len := row.length
    (List.range (row_len + 1 - min_len)).any (fun j =>
      let k := min_len + j
      (List.range (row_len - k + 1)).any (fun i =>
        let sub := (row.drop i).take k
        containsSeg s sub || containsSeg s sub.reverse)))

/-- Loop state of `contains_ordered_sequence`: current ascending and
descending run lengths and the previous alphanumeric character. -/
def ordered_seq_go (min_len : Nat) : Nat → Nat → Option Char → List Char → Bool
  | _, _, _, [] => false
  | inc_run, dec_run, prev, ch :: rest =>
    if !ch.isAlphanum then ordered_seq_go min_len 1 1 none rest
    else
      match prev with
      | none => ordered_seq_go min_len inc_run dec_run (some ch) rest
      | some p =>
        let diff : Int := (ch.toNat : Int) - (p.toNat : Int)
        let inc2 := if diff = 1 then inc_run + 1 else 1
        let dec2 := if diff = -1 then dec_run + 1 else 1
        if min_len ≤ inc2 ∨ min_len ≤ dec2 then true
        else ordered_seq_go min_len inc2 dec2 (some ch) rest

/-- Models `contains_ordered_sequence`: a run of `min_len` consecutive
ascending or descending ASCII-alphanumeric codes. -/
def contains_ordered_sequence (s : List Char) (min_len : Nat) : Bool :=
  if min_len ≤ 1 then false
  else ordered_seq_go min_len 1 1 none s

/-- The inner window scan of `contains_year`: some 4-digit window of the
current digit run parses into 1900..=2099. -/
def year_window (run : List Char) : Bool :=
  (List.range (run.length - 4 + 1)).any (fun i =>
    let y := (run.drop i).take 4
    decide (1900 ≤ parseDec y) && decide (parseDec y ≤ 2099))

/-- Loop of `contains_year`, carrying the current digit run. -/
def contains_year_go : List Char → List Char → Bool
  | _, [] => false
  | run, ch :: rest =>
    if ch.isDigit then
      let run2 := run ++ [ch]
      if 4 ≤ run2.length ∧ year_window run2 = true then true
      else contains_year_go run2 rest
    else contains_year_go [] rest

/-- Models `contains_year`: an embedded 4-digit token in 1900..=2099. -/
def contains_year (s : List Char) : Bool := contains_year_go [] s

/-- Models `classify_chars`: which of lower/upper/digit/symbol occur (any
non-ASCII-alphanumeric character counts as a symbol). -/
def classify_chars (s : List Char) : Bool × Bool × Bool × Bool :=
  s.foldl (fun acc ch =>
    match acc with
    | (l, u, d, sym) =>
      if ch.isLower then (true, u, d, sym)
      else if ch.isUpper then (l, true, d, sym)
      else if ch.isDigit then (l, u, true, sym)
      else (l, u, d, true)) (false, false, false, false)

/-- The character-class diversity penalty term of `pattern_penalty_bits`. -/
def class_penalty (password : List Char) : ℚ :=
  match classify_chars password with
  | (has_l, has_u, has_d, has_s) =>
    let classes : Nat := (if has_l then 1 else 0) + (if has_u then 1 else 0) +
      (if has_d then 1 else 0) + (if has_s then 1 else 0)
    if classes ≤ 1 then 20
    else if classes = 2 ∧ password.length ≤ 10 then 10 else 0

/-- The accumulated penalty of `pattern_penalty_bits`, before clamping. -/
def raw_penalty (password : List Char) : ℚ :=
  let lower := to_lower password
  let norm := normalize_leetspeak lower
  let rev := lower.reverse
  (if COMMON_PASSWORDS.any (fun p => p == lower) then 60 else 0) +
  (if COMMON_PASSWORDS.any (fun p => p == norm) then 40 else 0) +
  (if COMMON_PASSWORDS.any (fun p => p == rev) then 30 else 0) +
  (if contains_common_substring lower 4 then 12 else 0) +
  (if contains_common_substring norm 4 then 10 else 0) +
  (if is_repeating_char lower then 40 else 0) +
  (if contains_ordered_sequence lower 4 then 15 else 0) +
  (if contains_keyboard_sequence lower 4 then 15 else 0) +
  (if contains_year lower then 10 else 0) +
  (if contains_any_token lower COMMON_MONTHS_DAYS 3 then 10 else 0) +
  class_penalty password

/-- Models `pattern_penalty_bits`: zero on the empty password, otherwise the
accumulated penalty clamped to `[0, 100]`. -/
def pattern_penalty_bits (password : List Char) : ℚ :=
  if password = [] then 0
  else min (max (raw_penalty password) 0) 100

/-- Models the Shannon-entropy part of `calculate_shannon_entropy`: the
character-frequency entropy `-sum of p*log2(p)` scaled by the length. -/
noncomputable def shannon_raw (password : List Char) : ℝ :=
  let len : ℝ := password.length
  (-(∑ c ∈ password.toFinset,
      ((password.count c : ℝ) / len) * Real.logb 2 ((password.count c : ℝ) / len))) * len

/-- Models the rating thresholds of `calculate_shannon_entropy` (the source's
extra `is_nan` guard on the first branch has no model in the reals, and the
computed bits are never NaN). -/
noncomputable def ratingOf (entropy : ℝ) : String :=
  if entropy ≤ 28 then "Very Weak"
  else if entropy ≤ 35 then "Weak"
  else if entropy ≤ 59 then "Okay"
  else if entropy ≤ 127 then "Strong"
  else "Very Strong"

/-- Models `calculate_shannon_entropy`: entropy minus clamped penalty, floored
at zero, with the threshold rating. -/
noncomputable def calculate_shannon_entropy (password : List Char) : ℝ × String :=
  let entropy := shannon_raw password
  let penalty : ℝ := (pattern_penalty_bits password : ℚ)
  let entropy2 := max (entropy - penalty) 0
  (entropy2, ratingOf entropy2)

/-! ### Theorems -/

theorem utf8Decode_encodeChar (c : Nat) (h : ValidScalar c) (bs : List Nat) :
    utf8Decode (utf8EncodeChar c ++ bs) = (utf8Decode bs).map (c :: ·) := by
  obtain ⟨h1, h2⟩ := h
  unfold utf8EncodeChar
  by_cases hc1 : c < 0x80
  · rw [if_pos hc1]
    show utf8Decode (c :: bs) = _
    rw [utf8Decode, if_pos hc1]
  · rw [if_neg hc1]
    by_cases hc2 : c < 0x800
    · rw [if_pos hc2]
      show utf8Decode (_ :: _ :: bs) = _
      rw [utf8Decode]
      simp only [List.getD_cons_zero, List.length_cons, List.drop_succ_cons,
        List.drop_zero]
      rw [if_neg (by omega), if_neg (by omega), if_pos (by omega),
        if_pos ⟨by omega, by omega, by omega⟩]
      have hval : (0xC0 + c / 0x40 - 0xC0) * 0x40 + (0x80 + c % 0x40 - 0x80) = c := by
        omega
      rw [hval]
    · rw [if_neg hc2]
      by_cases hc3 : c < 0x10000
      · rw [if_pos hc3]
        show utf8Decode (_ :: _ :: _ :: bs) = _
        rw [utf8Decode]
        simp only [List.getD_cons_zero, List.getD_cons_succ, List.length_cons,
          List.drop_succ_cons, List.drop_zero]
        have hval : (0xE0 + c / 0x1000 - 0xE0) * 0x1000 +
            (0x80 + c / 0x40 % 0x40 - 0x80) * 0x40 + (0x80 + c % 0x40 - 0x80) = c := by
          omega
        rw [hval]
        rw [if_neg (by omega), if_neg (by omega), if_neg (by omega), if_pos (by omega),
          if_pos ⟨by omega, ⟨by omega, by omega⟩, ⟨by omega, by omega⟩, by omega, h2⟩]
      · rw [if_neg hc3]
        show utf8Decode (_ :: _ :: _ :: _ :: bs) = _
        rw [utf8Decode]
        simp only [List.getD_cons_zero, List.getD_cons_succ, List.length_cons,
          List.drop_succ_cons, List.drop_zero]
        have hval : (0xF0 + c / 0x40000 - 0xF0) * 0x40000 +
            (0x80 + c / 0x1000 % 0x40 - 0x80) * 0x1000 +
            (0x80 + c / 0x40 % 0x40 - 0x80) * 0x40 + (0x80 + c % 0x40 - 0x80) = c := by
          omega
        rw [hval]
        rw [if_neg (by omega), if_neg (by omega), if_neg (by omega),
          if_neg (by omega), if_pos (by omega),
          if_pos ⟨by omega, ⟨by omega, by omega⟩, ⟨by omega, by omega⟩,
            ⟨by omega, by omega⟩, by omega, by omega⟩]

/-- Decoding inverts encoding on lists of valid scalar values. -/
theorem utf8Decode_utf8Encode (u : List Nat) (h : ∀ c ∈ u, ValidScalar c) :
    utf8Decode (utf8Encode u) = some u := by
  induction u with
  | nil =>
    rw [show utf8Encode [] = [] from rfl, utf8Decode]
  | cons c cs ih =>
    have hc := h c (by simp)
    have hcs : ∀ x ∈ cs, ValidScalar x := fun x hx => h x (by simp [hx])
    show utf8Decode (utf8EncodeChar c ++ utf8Encode cs) = _
    rw [utf8Decode_encodeChar c hc, ih hcs]
    rfl

/-- The colon byte only appears in the encoding of the colon character:
multi-byte sequences consist of bytes at or above 0x80. -/
theorem colon_notin_encodeChar (c : Nat) (hc : c ≠ 0x3A) :
    ∀ b ∈ utf8EncodeChar c, b ≠ 0x3A := by
  intro b hb
  unfold utf8EncodeChar at hb
  by_cases hc1 : c < 0x80
  · rw [if_pos hc1] at hb
    simp at hb
    omega
  · rw [if_neg hc1] at hb
    by_cases hc2 : c < 0x800
    · rw [if_pos hc2] at hb
      simp at hb
      omega
    · rw [if_neg hc2] at hb
      by_cases hc3 : c < 0x10000
      · rw [if_pos hc3] at hb
        simp at hb
        omega
      · rw [if_neg hc3] at hb
        simp at hb
        omega

theorem colon_notin_utf8Encode (u : List Nat) (h : 0x3A ∉ u) :
    ∀ b ∈ utf8Encode u, b ≠ 0x3A := by
  intro b hb
  unfold utf8Encode at hb
  rw [List.mem_flatMap] at hb
  obtain ⟨c, hcu, hbc⟩ := hb
  exact colon_notin_encodeChar c (fun hx => h (hx ▸ hcu)) b hbc

theorem position_append_colon (l r : List Nat) (h : ∀ b ∈ l, b ≠ 0x3A) :
    position (· == 0x3A) (l ++ 0x3A :: r) = some l.length := by
  induction l with
  | nil => simp [position]
  | cons b bs ih =>
    have hb : b ≠ 0x3A := h b (by simp)
    have hbs : ∀ x ∈ bs, x ≠ 0x3A := fun x hx => h x (by simp [hx])
    show position _ (b :: (bs ++ 0x3A :: r)) = _
    rw [position, if_neg (by simpa using hb), ih hbs]
    rfl

theorem take_length_append (l r : List Nat) : (l ++ r).take l.length = l := by
  induction l with
  | nil => rfl
  | cons b bs ih => simp [ih]

theorem drop_length_succ_append (l : List Nat) (x : Nat) (r : List Nat) :
    (l ++ x :: r).drop (l.length + 1) = r := by
  induction l with
  | nil => rfl
  | cons b bs ih => simp [ih]

theorem except_bind_ok {α β : Type} (a : α) (f : α → Except String β) :
    (Except.ok a >>= f) = f a := rfl

theorem utf8Decode_nil : utf8Decode [] = some [] := by rw [utf8Decode]

/-- Claim C1 (counterexample): with the identity gateway (whose decrypt inverts
its encrypt), the username `"u"` with the empty password byte string encrypts
successfully, but decrypting the produced file content fails with the
malformed-data error instead of returning the `UserPass`, because
`decrypt_from_file` rejects an empty password after the separator. -/
theorem store_roundtrip_empty_password_fails :
    encrypt_to_file idGateway { username := [0x75], password := [] } =
      Except.ok [0x75, 0x3A] ∧
    decrypt_from_file idGateway [0x75, 0x3A] =
      Except.error "Decrypted data is malformed: empty password" ∧
    (decrypt_from_file idGateway [0x75, 0x3A]).isOk = false := by
  refine ⟨rfl, rfl, rfl⟩

/-- Claim C1 (amended): for every username containing no `:` and every
NON-EMPTY password byte string, encrypting the `UserPass` with
`Store::encrypt_to_file` and then decrypting with `Store::decrypt_from_file`
(assuming the crypto gateway's decrypt inverts its encrypt) returns a
`UserPass` with exactly the same username and the same password bytes. -/
theorem store_encrypt_decrypt_roundtrip (gw : CryptoGateway) (userpass : UserPass)
    (hinv : ∀ d ct, gw.encrypt d = Except.ok ct → gw.decrypt ct = Except.ok d)
    (huser : ∀ c ∈ userpass.username, ValidScalar c)
    (hcolon : 0x3A ∉ userpass.username)
    (hpw : userpass.password ≠ [])
    (ct : List Nat) (henc : encrypt_to_file gw userpass = Except.ok ct) :
    decrypt_from_file gw ct = Except.ok userpass := by
  obtain ⟨u, pw⟩ := userpass
  simp only at huser hcolon hpw
  unfold encrypt_to_file at henc
  simp only [List.append_assoc, List.singleton_append] at henc
  have hdec := hinv _ _ henc
  unfold decrypt_from_file
  rw [hdec, except_bind_ok]
  have hpos : position (· == 0x3A) (utf8Encode u ++ 0x3A :: pw) =
      some (utf8Encode u).length :=
    position_append_colon _ _ (colon_notin_utf8Encode u hcolon)
  simp only [hpos, take_length_append, drop_length_succ_append]
  rw [if_neg hpw]
  simp only [utf8Decode_utf8Encode u huser]

/-- Claim C1 (witness): concrete round trip for username `"u"`, password `"p"`
through the identity gateway. -/
theorem store_encrypt_decrypt_roundtrip_witness :
    decrypt_from_file idGateway [0x75, 0x3A, 0x70] =
      Except.ok { username := [0x75], password := [0x70] } :=
  store_encrypt_decrypt_roundtrip idGateway { username := [0x75], password := [0x70] }
    (fun _ _ h => h.symm) (by decide) (by decide) (by decide)
    [0x75, 0x3A, 0x70] rfl

/-- Claim C10: a decrypted account buffer whose first byte is `:` and whose
remaining bytes are non-empty yields a successful parse with the empty string
as username and the remaining bytes as password: an empty username is not
treated as malformed data. -/
theorem decrypt_empty_username (gw : CryptoGateway) (file rest : List Nat)
    (hdec : gw.decrypt file = Except.ok (0x3A :: rest)) (hne : rest ≠ []) :
    decrypt_from_file gw file = Except.ok { username := [], password := rest } := by
  unfold decrypt_from_file
  rw [hdec, except_bind_ok]
  have hpos : position (· == 0x3A) (0x3A :: rest) = some 0 := by
    rw [position, if_pos (by simp)]
  simp only [hpos, List.take_zero, List.drop_succ_cons, List.drop_zero]
  rw [if_neg hne]
  simp only [utf8Decode_nil]

/-- Claim C10 (witness): the buffer `":p"` parses into the empty username and
password bytes `"p"`. -/
theorem decrypt_empty_username_witness :
    decrypt_from_file idGateway [0x3A, 0x70] =
      Except.ok { username := [], password := [0x70] } :=
  decrypt_empty_username idGateway [0x3A, 0x70] [0x70] rfl (by decide)

theorem mem_insertName (l : List String) (v : String) : v ∈ insertName l v := by
  unfold insertName
  by_cases h : v ∈ l
  · rw [if_pos h]; exact h
  · rw [if_neg h]; simp

theorem not_mem_removeName (l : List String) (v : String) : v ∉ removeName l v := by
  simp [removeName]

theorem contains_eq_mem_dec {α : Type} [BEq α] [LawfulBEq α] (l : List α) (v : α) :
    l.contains v = decide (v ∈ l) := by
  simp [List.contains, List.elem_eq_mem]

/-- Claim C2: `is_totp_required` is true exactly when the vault name is in the
union of the two ledger files or its `totp.gpg` exists; when it is absent from
the ledgers but the file exists, the vault is re-added to both ledgers
(`ledger_add` puts the name in both copies); after `enable_totp` followed by
deleting `totp.gpg` directly from disk it still answers true, and after
`disable_totp` it answers false. -/
theorem is_totp_required_ledger_law (s : TotpFS) (v : String) :
    (is_totp_required s v).1 =
      (decide (v ∈ ledger_union s) || decide (v ∈ s.totpFiles)) ∧
    (is_totp_required s v).2 =
      (if v ∈ ledger_union s then s
       else if v ∈ s.totpFiles then ledger_add s v else s) ∧
    ((ledger_add s v).cfgLedger.contains v &&
      (ledger_add s v).dataLedger.contains v) = true ∧
    (is_totp_required (delete_totp_file (enable_totp s v) v) v).1 = true ∧
    (is_totp_required (disable_totp s v) v).1 = false := by
  refine ⟨?_, ?_, ?_, ?_, ?_⟩
  · unfold is_totp_required ledger_contains
    simp only [contains_eq_mem_dec, decide_eq_true_eq]
    by_cases h1 : v ∈ ledger_union s
    · simp [h1]
    · by_cases h2 : v ∈ s.totpFiles <;> simp [h1, h2]
  · unfold is_totp_required ledger_contains
    simp only [contains_eq_mem_dec, decide_eq_true_eq]
    by_cases h1 : v ∈ ledger_union s
    · simp [h1]
    · by_cases h2 : v ∈ s.totpFiles <;> simp [h1, h2]
  · simp [ledger_add, contains_eq_mem_dec, mem_insertName]
  · unfold is_totp_required ledger_contains
    simp only [contains_eq_mem_dec, decide_eq_true_eq]
    have : v ∈ ledger_union (delete_totp_file (enable_totp s v) v) := by
      simp [delete_totp_file, enable_totp, ledger_add, ledger_union, mem_insertName]
    simp [this]
  · unfold is_totp_required ledger_contains
    simp only [contains_eq_mem_dec, decide_eq_true_eq]
    have h1 : ¬ v ∈ ledger_union (disable_totp s v) := by
      unfold disable_totp ledger_remove ledger_union
      by_cases h : s.totpFiles.contains v <;>
        simp [h, not_mem_removeName]
    have h2 : ¬ v ∈ (disable_totp s v).totpFiles := by
      unfold disable_totp ledger_remove
      by_cases h : v ∈ s.totpFiles <;>
        simp [h, contains_eq_mem_dec, not_mem_removeName]
    simp [h1, h2]

/-- Claim C6: after `disable_totp` the vault name is in neither ledger file and
its `totp.gpg` file is gone; the ledger purge happens even when the file was
already absent (the state equation holds with no assumption on file
presence). -/
theorem disable_totp_purges (s : TotpFS) (v : String) :
    (disable_totp s v).cfgLedger.contains v = false ∧
    (disable_totp s v).dataLedger.contains v = false ∧
    (disable_totp s v).totpFiles.contains v = false := by
  refine ⟨?_, ?_, ?_⟩
  · unfold disable_totp ledger_remove
    by_cases h : v ∈ s.totpFiles <;>
      simp [h, contains_eq_mem_dec, not_mem_removeName]
  · unfold disable_totp ledger_remove
    by_cases h : v ∈ s.totpFiles <;>
      simp [h, contains_eq_mem_dec, not_mem_removeName]
  · unfold disable_totp ledger_remove
    by_cases h : v ∈ s.totpFiles <;>
      simp [h, contains_eq_mem_dec, not_mem_removeName]

theorem digitChar_toNat (d : Nat) (h : d < 10) : (digitChar d).toNat = 48 + d := by
  interval_cases d <;> rfl

theorem digitChar_isDigit (d : Nat) (h : d < 10) : (digitChar d).isDigit = true := by
  interval_cases d <;> rfl

theorem digitChar_not_ws (d : Nat) (h : d < 10) :
    (digitChar d).isWhitespace = false := by
  interval_cases d <;> rfl

theorem natRepr_mem (n : Nat) : ∀ c ∈ natRepr n, ∃ d, d < 10 ∧ c = digitChar d := by
  induction n using Nat.strong_induction_on with
  | _ n ih =>
    rw [natRepr]
    by_cases h : n < 10
    · rw [if_pos h]
      intro c hc
      simp only [List.mem_singleton] at hc
      exact ⟨n, h, hc⟩
    · rw [if_neg h]
      intro c hc
      rw [List.mem_append] at hc
      rcases hc with hc | hc
      · exact ih (n / 10) (Nat.div_lt_self (by omega) (by omega)) c hc
      · simp only [List.mem_singleton] at hc
        exact ⟨n % 10, by omega, hc⟩

theorem natRepr_length_pos (n : Nat) : 1 ≤ (natRepr n).length := by
  rw [natRepr]
  by_cases h : n < 10 <;> simp [h]

theorem natRepr_length_le (k : Nat) : ∀ (n : Nat), 1 ≤ k → n < 10 ^ k →
    (natRepr n).length ≤ k := by
  induction k with
  | zero => omega
  | succ k ih =>
    intro n _ hn
    rw [natRepr]
    by_cases h : n < 10
    · rw [if_pos h]
      simp
    · rw [if_neg h]
      simp only [List.length_append, List.length_cons, List.length_nil]
      have hk1 : 1 ≤ k := by
        rcases Nat.eq_zero_or_pos k with hk | hk
        · subst hk
          simp at hn
          omega
        · exact hk
      have hdiv : n / 10 < 10 ^ k := by
        rw [Nat.div_lt_iff_lt_mul (by omega)]
        calc n < 10 ^ (k + 1) := hn
          _ = 10 ^ k * 10 := by ring
      have := ih (n / 10) hk1 hdiv
      omega

theorem foldl_natRepr (n : Nat) : ∀ (a : Nat),
    (natRepr n).foldl (fun x c => 10 * x + (c.toNat - 48)) a =
      a * 10 ^ (natRepr n).length + n := by
  induction n using Nat.strong_induction_on with
  | _ n ih =>
    intro a
    rw [natRepr]
    by_cases h : n < 10
    · rw [if_pos h]
      simp only [List.foldl_cons, List.foldl_nil, List.length_cons,
        List.length_nil, digitChar_toNat n h]
      ring_nf
      omega
    · rw [if_neg h]
      rw [List.foldl_append]
      rw [ih (n / 10) (Nat.div_lt_self (by omega) (by omega)) a]
      simp only [List.foldl_cons, List.foldl_nil, List.length_append,
        List.length_cons, List.length_nil, digitChar_toNat (n % 10) (by omega)]
      have hstep : (48 + n % 10 - 48) = n % 10 := by omega
      rw [hstep]
      rw [show (natRepr (n / 10)).length + (0 + 1) =
        (natRepr (n / 10)).length + 1 from by omega]
      rw [pow_succ, ← Nat.mul_assoc]
      generalize a * 10 ^ (natRepr (n / 10)).length = Q
      omega

theorem parseDec_replicate_zero (k : Nat) (l : List Char) :
    (List.replicate k '0' ++ l).foldl (fun a c => 10 * a + (c.toNat - 48)) 0 =
      l.foldl (fun a c => 10 * a + (c.toNat - 48)) 0 := by
  induction k with
  | zero => rfl
  | succ k ih =>
    rw [List.replicate_succ, List.cons_append, List.foldl_cons]
    simpa using ih

theorem parseDec_fmt_zero_pad (w n : Nat) : parseDec (fmt_zero_pad w n) = n := by
  unfold parseDec fmt_zero_pad
  rw [parseDec_replicate_zero]
  rw [foldl_natRepr n 0]
  simp

theorem fmt_zero_pad_inj (w n m : Nat) (h : fmt_zero_pad w n = fmt_zero_pad w m) :
    n = m := by
  have := congrArg parseDec h
  rwa [parseDec_fmt_zero_pad, parseDec_fmt_zero_pad] at this

theorem fmt_zero_pad_length (w n : Nat) (h1 : 1 ≤ w) (h2 : n < 10 ^ w) :
    (fmt_zero_pad w n).length = w := by
  unfold fmt_zero_pad
  have hle := natRepr_length_le w n h1 h2
  simp only [List.length_append, List.length_replicate]
  omega

theorem fmt_zero_pad_mem (w n : Nat) :
    ∀ c ∈ fmt_zero_pad w n, ∃ d, d < 10 ∧ c = digitChar d := by
  intro c hc
  unfold fmt_zero_pad at hc
  rw [List.mem_append] at hc
  rcases hc with hc | hc
  · rw [List.mem_replicate] at hc
    exact ⟨0, by omega, hc.2⟩
  · exact natRepr_mem n c hc

theorem fmt_zero_pad_all_digit (w n : Nat) :
    (fmt_zero_pad w n).all Char.isDigit = true := by
  rw [List.all_eq_true]
  intro c hc
  obtain ⟨d, hd, rfl⟩ := fmt_zero_pad_mem w n c hc
  exact digitChar_isDigit d hd

theorem fmt_zero_pad_no_ws (w n : Nat) :
    ∀ c ∈ fmt_zero_pad w n, c.isWhitespace = false := by
  intro c hc
  obtain ⟨d, hd, rfl⟩ := fmt_zero_pad_mem w n c hc
  exact digitChar_not_ws d hd

theorem dropWhile_eq_self_of_no_ws (l : List Char)
    (h : ∀ c ∈ l, c.isWhitespace = false) :
    l.dropWhile Char.isWhitespace = l := by
  cases l with
  | nil => rfl
  | cons c cs =>
    rw [List.dropWhile_cons, if_neg (by simp [h c (by simp)])]

theorem normalize_code_no_ws (l : List Char)
    (h : ∀ c ∈ l, c.isWhitespace = false) : normalize_code l = l := by
  unfold normalize_code rustTrim
  rw [dropWhile_eq_self_of_no_ws l h]
  rw [dropWhile_eq_self_of_no_ws l.reverse (by
    intro c hc
    exact h c (List.mem_reverse.mp hc))]
  rw [List.reverse_reverse]
  rw [List.filter_eq_self.mpr]
  intro c hc
  simp [h c hc]

theorem hotp_lt (mac : List Nat → List Nat → List Nat) (secret : List Nat)
    (counter digits : Nat) : hotp mac secret counter digits < 10 ^ digits :=
  Nat.mod_lt _ (Nat.pos_pow_of_pos digits (by omega))

theorem and_15_eq_mod (x : Nat) : x &&& 15 = x % 16 := by
  have h := Nat.and_pow_two_sub_one_eq_mod x 4
  norm_num at h
  exact h

theorem and_127_eq_mod (x : Nat) : x &&& 127 = x % 128 := by
  have h := Nat.and_pow_two_sub_one_eq_mod x 7
  norm_num at h
  exact h

theorem and_255_eq_mod (x : Nat) : x &&& 255 = x % 256 := by
  have h := Nat.and_pow_two_sub_one_eq_mod x 8
  norm_num at h
  exact h

theorem lor_eq_add_of_lt (x y n : Nat) (hy : y < 2 ^ n) (k : Nat)
    (hx : x = 2 ^ n * k) : (x ||| y) = x + y := by
  subst hx
  exact (Nat.mul_add_lt_is_or hy k).symm

theorem or_shift_sum (a b c d : Nat) (_ha : a < 128) (hb : b < 256)
    (hc : c < 256) (hd : d < 256) :
    ((a <<< 24) ||| (b <<< 16) ||| (c <<< 8) ||| d) =
      a * 2 ^ 24 + b * 2 ^ 16 + c * 2 ^ 8 + d := by
  rw [Nat.shiftLeft_eq, Nat.shiftLeft_eq, Nat.shiftLeft_eq]
  rw [lor_eq_add_of_lt (a * 2 ^ 24) (b * 2 ^ 16) 24 (by omega) a (by ring)]
  rw [lor_eq_add_of_lt (a * 2 ^ 24 + b * 2 ^ 16) (c * 2 ^ 8) 16 (by omega)
    (a * 2 ^ 8 + b) (by ring)]
  rw [lor_eq_add_of_lt (a * 2 ^ 24 + b * 2 ^ 16 + c * 2 ^ 8) d 8 hd
    (a * 2 ^ 16 + b * 2 ^ 8 + c) (by ring)]

/-- Claim C5: `hotp` computes the RFC 4226 value — HMAC over the 8-byte
big-endian counter, dynamic truncation at the low nibble of the last MAC
byte, top bit of the selected 4-byte group masked, reduction modulo
`10^digits` — and the value is below `10^digits`, so the caller's zero-padded
rendering has exactly `digits` characters. -/
theorem hotp_matches_rfc4226 (mac : List Nat → List Nat → List Nat)
    (secret : List Nat) (counter digits : Nat) (hd : 1 ≤ digits)
    (hlen : (mac secret (be_bytes8 counter)).length = 20) :
    hotp mac secret counter digits = hotp_rfc4226 mac secret counter digits ∧
    hotp mac secret counter digits < 10 ^ digits ∧
    (fmt_zero_pad digits (hotp mac secret counter digits)).length = digits := by
  refine ⟨?_, hotp_lt mac secret counter digits,
    fmt_zero_pad_length digits _ hd (hotp_lt mac secret counter digits)⟩
  have hlast : (mac secret (be_bytes8 counter)).getLastD 0 =
      (mac secret (be_bytes8 counter)).getD 19 0 := by
    rw [List.getLastD_eq_getLast?, List.getLast?_eq_getElem?, hlen,
      List.getD_eq_getElem?_getD]
  simp only [hotp, hotp_rfc4226]
  rw [hlast, and_15_eq_mod, and_127_eq_mod, and_255_eq_mod, and_255_eq_mod,
    and_255_eq_mod]
  rw [or_shift_sum _ _ _ _ (Nat.mod_lt _ (by omega)) (Nat.mod_lt _ (by omega))
    (Nat.mod_lt _ (by omega)) (Nat.mod_lt _ (by omega))]

/-- Claim C5 (witness): concrete evaluation with a 20-byte digest function. -/
theorem hotp_matches_rfc4226_witness :
    hotp (fun _ _ => List.range 20) [] 0 6 =
      hotp_rfc4226 (fun _ _ => List.range 20) [] 0 6 ∧
    hotp (fun _ _ => List.range 20) [] 0 6 < 10 ^ 6 ∧
    (fmt_zero_pad 6 (hotp (fun _ _ => List.range 20) [] 0 6)).length = 6 :=
  hotp_matches_rfc4226 (fun _ _ => List.range 20) [] 0 6 (by omega) (by simp)

theorem verify_totp_reject_helper (mac : List Nat → List Nat → List Nat)
    (secretRes : Except String (List Nat)) (code : List Char) (now : Nat)
    (h : (normalize_code code).length < 6 ∨ 8 < (normalize_code code).length ∨
      ¬ ((normalize_code code).all Char.isDigit = true)) :
    verify_totp_code mac secretRes code now = Except.ok false := by
  unfold verify_totp_code
  rw [if_pos]
  rcases h with h | h | h
  · simp [h]
  · simp [h]
  · simp [Bool.not_eq_true] at h
    simp [h]

/-- Claim C3: an input whose whitespace-free normalization is shorter than 6,
longer than 8, or contains a non-digit is answered `Ok(false)` for every
possible outcome of secret decryption — including a failing decryption — so
no decryption result is consulted and no error is surfaced. -/
theorem verify_totp_rejects_malformed (mac : List Nat → List Nat → List Nat)
    (secretRes : Except String (List Nat)) (code : List Char) (now : Nat)
    (h : (normalize_code code).length < 6 ∨ 8 < (normalize_code code).length ∨
      ¬ ((normalize_code code).all Char.isDigit = true)) :
    verify_totp_code mac secretRes code now = Except.ok false :=
  verify_totp_reject_helper mac secretRes code now h

/-- Claim C3 (witness): the 5-digit input `"12345"` is rejected even when
decryption of the stored secret would fail. -/
theorem verify_totp_rejects_malformed_witness :
    verify_totp_code (fun _ _ => List.range 20) (Except.error "no secret")
      ['1', '2', '3', '4', '5'] 0 = Except.ok false :=
  verify_totp_rejects_malformed (fun _ _ => List.range 20)
    (Except.error "no secret") ['1', '2', '3', '4', '5'] 0 (by decide)

theorem verify_totp_accept_shape (mac : List Nat → List Nat → List Nat)
    (secret : List Nat) (code : List Char) (now : Nat)
    (hlen1 : 6 ≤ (normalize_code code).length)
    (hlen2 : (normalize_code code).length ≤ 8)
    (hdig : (normalize_code code).all Char.isDigit = true) :
    verify_totp_code mac (Except.ok secret) code now = Except.ok (
      (fmt_zero_pad 6 (hotp mac secret
        (u64_cast (((now / 30 : Nat) : Int) + (-1))) 6) == normalize_code code) ||
      (fmt_zero_pad 6 (hotp mac secret
        (u64_cast (((now / 30 : Nat) : Int) + 0)) 6) == normalize_code code) ||
      (fmt_zero_pad 6 (hotp mac secret
        (u64_cast (((now / 30 : Nat) : Int) + 1)) 6) == normalize_code code)) := by
  unfold verify_totp_code
  rw [if_neg (by simp [hdig]; omega)]
  rw [except_bind_ok]
  simp [List.any_cons, List.any_nil, Bool.or_assoc]

/-- Claim C9: an input that normalizes to exactly 7 or 8 ASCII digits passes
the length filter but can never match a candidate, because candidates are
zero-padded renderings of values below `10^6` and hence exactly 6 characters
long; the verdict is `Ok(false)`. -/
theorem verify_totp_rejects_7_8_digits (mac : List Nat → List Nat → List Nat)
    (secret : List Nat) (code : List Char) (now : Nat)
    (hlen1 : 7 ≤ (normalize_code code).length)
    (hlen2 : (normalize_code code).length ≤ 8)
    (hdig : (normalize_code code).all Char.isDigit = true) :
    verify_totp_code mac (Except.ok secret) code now = Except.ok false := by
  rw [verify_totp_accept_shape mac secret code now (by omega) hlen2 hdig]
  have hne : ∀ c : Nat,
      (fmt_zero_pad 6 (hotp mac secret c 6) == normalize_code code) = false := by
    intro c
    rw [beq_eq_false_iff_ne]
    intro hfx
    have h6 := fmt_zero_pad_length 6 (hotp mac secret c 6) (by omega)
      (hotp_lt mac secret c 6)
    rw [hfx] at h6
    omega
  rw [hne, hne, hne]
  rfl

/-- Claim C9 (witness): the 7-digit input `"1234567"` is rejected. -/
theorem verify_totp_rejects_7_8_digits_witness :
    verify_totp_code (fun _ _ => List.range 20) (Except.ok [])
      ['1', '2', '3', '4', '5', '6', '7'] 0 = Except.ok false :=
  verify_totp_rejects_7_8_digits (fun _ _ => List.range 20) []
    ['1', '2', '3', '4', '5', '6', '7'] 0 (by decide) (by decide) (by decide)

theorem u64_cast_skew_neg (now : Nat) (hnow : 30 ≤ now) (hbound : now < 2 ^ 63) :
    u64_cast (((now / 30 : Nat) : Int) + (-1)) = now / 30 - 1 := by
  unfold u64_cast
  rw [Int.emod_eq_of_lt (by omega) (by omega)]
  omega

theorem u64_cast_skew_zero (now : Nat) (hbound : now < 2 ^ 63) :
    u64_cast (((now / 30 : Nat) : Int) + 0) = now / 30 := by
  unfold u64_cast
  rw [Int.emod_eq_of_lt (by omega) (by omega)]
  omega

theorem u64_cast_skew_pos (now : Nat) (hbound : now < 2 ^ 63) :
    u64_cast (((now / 30 : Nat) : Int) + 1) = now / 30 + 1 := by
  unfold u64_cast
  rw [Int.emod_eq_of_lt (by omega) (by omega)]
  omega

/-- Claim C4: with a decryptable secret, `verify_totp_code` answers `Ok(true)`
exactly when the normalized code equals the zero-padded 6-digit HOTP value at
counter `now/30 + δ` for some `δ ∈ {-1, 0, +1}`; the code computed at the
current time step verifies, and the code computed at `now/30 + 2` does not
(whenever its HOTP value differs from the three in-window values, which any
concrete instance can discharge by computation). -/
theorem verify_totp_window (mac : List Nat → List Nat → List Nat)
    (secret : List Nat) (code : List Char) (now : Nat)
    (hnow : 30 ≤ now) (hbound : now < 2 ^ 63) :
    (verify_totp_code mac (Except.ok secret) code now = Except.ok true ↔
      (normalize_code code = fmt_zero_pad 6 (hotp mac secret (now / 30 - 1) 6) ∨
       normalize_code code = fmt_zero_pad 6 (hotp mac secret (now / 30) 6) ∨
       normalize_code code = fmt_zero_pad 6 (hotp mac secret (now / 30 + 1) 6))) ∧
    verify_totp_code mac (Except.ok secret)
      (fmt_zero_pad 6 (hotp mac secret (now / 30) 6)) now = Except.ok true ∧
    (hotp mac secret (now / 30 + 2) 6 ≠ hotp mac secret (now / 30 - 1) 6 →
      hotp mac secret (now / 30 + 2) 6 ≠ hotp mac secret (now / 30) 6 →
      hotp mac secret (now / 30 + 2) 6 ≠ hotp mac secret (now / 30 + 1) 6 →
      verify_totp_code mac (Except.ok secret)
        (fmt_zero_pad 6 (hotp mac secret (now / 30 + 2) 6)) now = Except.ok false) := by
  have hc1 := u64_cast_skew_neg now hnow hbound
  have hc2 := u64_cast_skew_zero now hbound
  have hc3 := u64_cast_skew_pos now hbound
  have hfl : ∀ c : Nat, (fmt_zero_pad 6 (hotp mac secret c 6)).length = 6 :=
    fun c => fmt_zero_pad_length 6 _ (by omega) (hotp_lt mac secret c 6)
  have hfd : ∀ c : Nat, (fmt_zero_pad 6 (hotp mac secret c 6)).all Char.isDigit = true :=
    fun c => fmt_zero_pad_all_digit 6 _
  have hfn : ∀ c : Nat, normalize_code (fmt_zero_pad 6 (hotp mac secret c 6)) =
      fmt_zero_pad 6 (hotp mac secret c 6) :=
    fun c => normalize_code_no_ws _ (fmt_zero_pad_no_ws 6 _)
  refine ⟨?_, ?_, ?_⟩
  · by_cases hok : 6 ≤ (normalize_code code).length ∧
        (normalize_code code).length ≤ 8 ∧
        (normalize_code code).all Char.isDigit = true
    · rw [verify_totp_accept_shape mac secret code now hok.1 hok.2.1 hok.2.2,
        hc1, hc2, hc3]
      constructor
      · intro hx
        rw [Except.ok.injEq] at hx
        rcases (Bool.or_eq_true _ _).mp hx with hx | h
        · rcases (Bool.or_eq_true _ _).mp hx with h | h
          · exact Or.inl ((beq_iff_eq.mp h).symm)
          · exact Or.inr (Or.inl ((beq_iff_eq.mp h).symm))
        · exact Or.inr (Or.inr ((beq_iff_eq.mp h).symm))
      · rintro (h | h | h) <;> simp [h]
    · have hm : (normalize_code code).length < 6 ∨
          8 < (normalize_code code).length ∨
          ¬ ((normalize_code code).all Char.isDigit = true) := by
        by_contra hcon
        push_neg at hcon
        exact hok ⟨by omega, by omega, hcon.2.2⟩
      rw [verify_totp_reject_helper mac (Except.ok secret) code now hm]
      constructor
      · intro hx
        exact absurd hx (by simp)
      · rintro (h | h | h) <;>
          (exfalso
           rcases hm with hm | hm | hm
           · rw [h, hfl] at hm
             omega
           · rw [h, hfl] at hm
             omega
           · rw [h] at hm
             exact hm (hfd _))
  · rw [verify_totp_accept_shape mac secret _ now (by rw [hfn, hfl])
      (by rw [hfn, hfl]; omega) (by rw [hfn]; exact hfd _), hc1, hc2, hc3, hfn]
    simp
  · intro hne1 hne2 hne3
    rw [verify_totp_accept_shape mac secret _ now (by rw [hfn, hfl])
      (by rw [hfn, hfl]; omega) (by rw [hfn]; exact hfd _), hc1, hc2, hc3, hfn]
    have hb : ∀ c : Nat, hotp mac secret (now / 30 + 2) 6 ≠ hotp mac secret c 6 →
        (fmt_zero_pad 6 (hotp mac secret c 6) ==
          fmt_zero_pad 6 (hotp mac secret (now / 30 + 2) 6)) = false := by
      intro c hne
      rw [beq_eq_false_iff_ne]
      intro hx
      exact hne (fmt_zero_pad_inj 6 _ _ hx).symm
    rw [hb _ hne1, hb _ hne2, hb _ hne3]
    rfl

theorem getD_mem_of_ne_nil (l : List Char) (i : Nat) (h : l ≠ []) :
    l.getD (i % l.length) ' ' ∈ l := by
  have hlen : 0 < l.length := List.length_pos.mpr h
  have hi : i % l.length < l.length := Nat.mod_lt _ hlen
  rw [List.getD_eq_getElem?_getD, List.getElem?_eq_getElem hi]
  exact List.getElem_mem hi

theorem mem_candidate_pool (app : FmpApp) (c : Char) (h : c ∈ candidate_pool app) :
    (c ∈ class_pool app ∧ c ∉ app.ignore_characters) ∨
      c ∈ app.consider_characters := by
  unfold candidate_pool at h
  rw [List.mem_dedup, List.mem_append] at h
  rcases h with h | h
  · rw [List.mem_filter] at h
    refine Or.inl ⟨h.1, ?_⟩
    have h2 := h.2
    simp only [contains_eq_mem_dec, Bool.not_eq_true',
      decide_eq_false_iff_not] at h2
    exact h2
  · exact Or.inr h

/-- Claim C8: when the candidate pool — selected class pools minus excluded
characters plus included characters, include winning — is non-empty, the
generated password has exactly the requested length and each of its
characters is either a selected-class character not excluded, or an
explicitly included character; when the pool is empty the app (in particular
its generated-password field) is unchanged. -/
theorem generate_password_constraints (app : FmpApp) (draws : Nat → Nat) :
    (candidate_pool app ≠ [] →
      ((generate_password app draws).generated_password.length =
          app.password_length ∧
        ∀ c ∈ (generate_password app draws).generated_password,
          (c ∈ class_pool app ∧ c ∉ app.ignore_characters) ∨
            c ∈ app.consider_characters)) ∧
    (candidate_pool app = [] → generate_password app draws = app) := by
  constructor
  · intro hne
    unfold generate_password
    rw [if_pos hne]
    simp only [List.length_map, List.length_range, List.mem_map,
      List.mem_range]
    refine ⟨trivial, ?_⟩
    rintro c ⟨i, _, rfl⟩
    exact mem_candidate_pool app _ (getD_mem_of_ne_nil _ _ hne)
  · intro hempty
    unfold generate_password
    rw [if_neg (by simp [hempty])]

/-- Claim C8 (witness): the generator run on the sample app (lower-case pool,
length 4) satisfies the length and membership constraints. -/
theorem generate_password_constraints_witness :
    (generate_password sampleApp (fun i => i)).generated_password.length =
        sampleApp.password_length ∧
      ∀ c ∈ (generate_password sampleApp (fun i => i)).generated_password,
        (c ∈ class_pool sampleApp ∧ c ∉ sampleApp.ignore_characters) ∨
          c ∈ sampleApp.consider_characters :=
  (generate_password_constraints sampleApp (fun i => i)).1 (by decide)

/-- Claim C4 (witness): with a message-dependent digest function, the code for
the current step of `now = 900` verifies and the code for step `+2` fails; the
window characterization is instantiated at the accepted code. -/
theorem verify_totp_window_witness :
    verify_totp_code (fun _ msg => List.range 12 ++ msg) (Except.ok [])
      (fmt_zero_pad 6 (hotp (fun _ msg => List.range 12 ++ msg) [] (900 / 30) 6))
      900 = Except.ok true ∧
    verify_totp_code (fun _ msg => List.range 12 ++ msg) (Except.ok [])
      (fmt_zero_pad 6 (hotp (fun _ msg => List.range 12 ++ msg) [] (900 / 30 + 2) 6))
      900 = Except.ok false :=
  ⟨(verify_totp_window (fun _ msg => List.range 12 ++ msg) [] [] 900
      (by omega) (by omega)).2.1,
    (verify_totp_window (fun _ msg => List.range 12 ++ msg) [] [] 900
      (by omega) (by omega)).2.2 (by decide) (by decide) (by decide)⟩

/-- Claim C7: the returned bits equal `max(0, H*length - penalty)` with the
penalty clamped to `[0, 100]`, the rating is obtained from the bits by the
fixed thresholds of `ratingOf` (at most 28 bits is Very Weak, at most 35 Weak,
at most 59 Okay, at most 127 Strong, above that Very Strong), and the empty
password yields 0 bits with rating Very Weak. -/
theorem calculate_shannon_entropy_spec :
    (∀ password : List Char,
      calculate_shannon_entropy password =
        (max 0 (shannon_raw password - (pattern_penalty_bits password : ℚ)),
          ratingOf (max 0 (shannon_raw password - (pattern_penalty_bits password : ℚ)))) ∧
      0 ≤ pattern_penalty_bits password ∧ pattern_penalty_bits password ≤ 100) ∧
    calculate_shannon_entropy [] = (0, "Very Weak") := by
  have hbounds : ∀ password : List Char,
      0 ≤ pattern_penalty_bits password ∧ pattern_penalty_bits password ≤ 100 := by
    intro password
    unfold pattern_penalty_bits
    by_cases h : password = []
    · rw [if_pos h]
      norm_num
    · rw [if_neg h]
      exact ⟨le_min (le_max_right _ _) (by norm_num), min_le_right _ _⟩
  have hshape : ∀ password : List Char,
      calculate_shannon_entropy password =
        (max 0 (shannon_raw password - (pattern_penalty_bits password : ℚ)),
          ratingOf (max 0 (shannon_raw password - (pattern_penalty_bits password : ℚ)))) := by
    intro password
    simp only [calculate_shannon_entropy]
    rw [max_comm]
  refine ⟨fun password => ⟨hshape password, hbounds password⟩, ?_⟩
  have hsh : shannon_raw ([] : List Char) = 0 := by
    simp [shannon_raw]
  have hpen : pattern_penalty_bits ([] : List Char) = 0 := by
    simp [pattern_penalty_bits]
  have hr : ratingOf 0 = "Very Weak" := by
    unfold ratingOf
    rw [if_pos (by norm_num)]
  have h0 : max (shannon_raw ([] : List Char) -
      ((pattern_penalty_bits ([] : List Char) : ℚ) : ℝ)) 0 = 0 := by
    rw [hsh, hpen]
    norm_num
  simp only [calculate_shannon_entropy, h0, hr]

end FMP

